import Mathlib

/-!
ITA2 tools: the ASCII <-> ITA2 codec of `src/ita2/ita2.c`.

A shallow embedding of the two conversion routines `asc2ita` and `ita2asc`,
their three lookup tables and the global `shift_state`, followed by the
properties of the codec.

Bytes are natural numbers.  The global `shift_state` is passed in and returned
explicitly, and every `putchar` appends one byte to the returned output list.
-/

namespace Ita2

/-! ## Constants -/

/-- The C constant `SHIFT_FIGS`. -/
def SHIFT_FIGS : Nat := 0x1B

/-- The C constant `SHIFT_LTRS`. -/
def SHIFT_LTRS : Nat := 0x1F

/-- The C constant `ITA2_BOTH`: the code is the same character in both shifts. -/
def ITA2_BOTH : Nat := 0xFC

/-- The C constant `ITA2_FIGS`: the code is a character of the FIGS shift. -/
def ITA2_FIGS : Nat := 0xFD

/-- The C constant `ITA2_LTRS`: the code is a character of the LTRS shift. -/
def ITA2_LTRS : Nat := 0xFE

/-- The C constant `ITA2_NONE`: the character has no ITA2 equivalent. -/
def ITA2_NONE : Nat := 0xFF

/-! ## Tables -/

/-- The table `ita2_ascii_ltrs[32]`: ITA2 code to ASCII in the LTRS shift. -/
def ita2_ascii_ltrs : List Nat :=
  [ 0x00, 0x45, 0x0A, 0x41, 0x20, 0x53, 0x49, 0x55,
    0x0D, 0x44, 0x52, 0x4A, 0x4E, 0x46, 0x43, 0x4B,
    0x54, 0x5A, 0x4C, 0x57, 0x48, 0x59, 0x50, 0x51,
    0x4F, 0x42, 0x47, 0xFD, 0x4D, 0x58, 0x56, 0xFE ]

/-- The table `ita2_ascii_figs[32]`: ITA2 code to ASCII in the FIGS shift. -/
def ita2_ascii_figs : List Nat :=
  [ 0x00, 0x33, 0x0A, 0x2D, 0x20, 0x27, 0x38, 0x37,
    0x0D, 0x05, 0x34, 0x07, 0x2C, 0x21, 0x3A, 0x28,
    0x35, 0x2B, 0x29, 0x32, 0x24, 0x36, 0x30, 0x31,
    0x39, 0x3F, 0x26, 0xFD, 0x2E, 0x2F, 0x3B, 0xFE ]

/-- The table `ascii_ita2[128]`: ASCII to ITA2, shift tag in the high byte and
the code in the low byte. -/
def ascii_ita2 : List Nat :=
  [ 0xFC00, 0xFFFF, 0xFFFF, 0xFFFF, 0xFFFF, 0xFD09, 0xFFFF, 0xFD0B,
    0xFFFF, 0xFFFF, 0xFC02, 0xFFFF, 0xFFFF, 0xFC08, 0xFFFF, 0xFFFF,
    0xFFFF, 0xFFFF, 0xFFFF, 0xFFFF, 0xFFFF, 0xFFFF, 0xFFFF, 0xFFFF,
    0xFFFF, 0xFFFF, 0xFFFF, 0xFFFF, 0xFFFF, 0xFFFF, 0xFFFF, 0xFFFF,
    0xFC04, 0xFD0D, 0xFD27, 0xFFFF, 0xFD14, 0xFFFF, 0xFD26, 0xFD27,
    0xFD0F, 0xFD12, 0xFFFF, 0xFD11, 0xFD0C, 0xFD03, 0xFD1C, 0xFD1D,
    0xFD16, 0xFD17, 0xFD13, 0xFD01, 0xFD0A, 0xFD10, 0xFD15, 0xFD07,
    0xFD06, 0xFD18, 0xFD0E, 0xFD1E, 0xFFFF, 0xFFFF, 0xFFFF, 0xFD19,
    0xFFFF, 0xFE03, 0xFE19, 0xFE0E, 0xFE09, 0xFE01, 0xFE0D, 0xFE1A,
    0xFE14, 0xFE06, 0xFE0B, 0xFE0F, 0xFE12, 0xFE1C, 0xFE0C, 0xFE18,
    0xFE16, 0xFE17, 0xFE0A, 0xFE05, 0xFE10, 0xFE07, 0xFE1E, 0xFE13,
    0xFE1D, 0xFE15, 0xFE11, 0xFFFF, 0xFFFF, 0xFFFF, 0xFFFF, 0xFFFF,
    0xFFFF, 0xFE03, 0xFE19, 0xFE0E, 0xFE09, 0xFE01, 0xFE0D, 0xFE1A,
    0xFE14, 0xFE06, 0xFE0B, 0xFE0F, 0xFE12, 0xFE1C, 0xFE0C, 0xFE18,
    0xFE16, 0xFE17, 0xFE0A, 0xFE05, 0xFE10, 0xFE07, 0xFE1E, 0xFE13,
    0xFE1D, 0xFE15, 0xFE11, 0xFFFF, 0xFFFF, 0xFFFF, 0xFFFF, 0xFFFF ]

/-! ## The encoder -/

/-- The statement `c &= 0x7F` of `asc2ita`: the index used for `ascii_ita2`.
The argument is the value of the input byte; for a negative `char` the
bitwise and with `0x7F` keeps the same seven low bits. -/
def asc2ita_index (c : Nat) : Nat := c &&& 0x7F

/-- The local `conv = ascii_ita2[c]` of `asc2ita`, after the masking: the
masked index is at most `0x7F`, inside the 128 entries of the table. -/
def asc2ita_conv (c : Nat) : Nat :=
  ascii_ita2.get ⟨asc2ita_index c,
    Nat.lt_of_le_of_lt Nat.and_le_right (by simp [ascii_ita2])⟩

/-- The local `lsb = (uint8_t) (conv & 0x00FF)`. -/
def asc2ita_lsb (c : Nat) : Nat := (asc2ita_conv c &&& 0x00FF) % 256

/-- The local `msb = (uint8_t) (conv >> 8) & 0xff`. -/
def asc2ita_msb (c : Nat) : Nat := ((asc2ita_conv c >>> 8) % 256) &&& 0xff

/-- The routine `asc2ita(char c)`: from the shift state before the call and the
input byte, the bytes written with `putchar` and the shift state after the
call. -/
def asc2ita (shift_state : Nat) (c : Nat) : List Nat × Nat :=
  let lsb := asc2ita_lsb c
  let msb := asc2ita_msb c
  if msb = ITA2_BOTH then
    ([lsb], shift_state)
  else if msb = ITA2_FIGS then
    if shift_state ≠ SHIFT_FIGS then ([SHIFT_FIGS, lsb], SHIFT_FIGS)
    else ([lsb], shift_state)
  else if msb = ITA2_LTRS then
    if shift_state ≠ SHIFT_LTRS then ([SHIFT_LTRS, lsb], SHIFT_LTRS)
    else ([lsb], shift_state)
  else
    ([], shift_state)

/-- Successive calls of `asc2ita` on the bytes of a stream, as in the loop of
`main`: all the bytes written, and the final shift state. -/
def asc2ita_stream (shift_state : Nat) : List Nat → List Nat × Nat
  | [] => ([], shift_state)
  | c :: cs =>
    let r := asc2ita shift_state c
    let rest := asc2ita_stream r.2 cs
    (r.1 ++ rest.1, rest.2)

/-! ## The decoder -/

/-- The routine `ita2asc(char c)`: from the shift state before the call and the
input byte, the bytes written with `putchar` and the shift state after the
call.  The `default` branch reads `ita2_ascii_figs[c]` or `ita2_ascii_ltrs[c]`
with no test on `c`; the result is `none` when that read falls outside the 32
entries of the table, where C leaves the behaviour undefined. -/
def ita2asc (shift_state : Nat) (c : Nat) : Option (List Nat × Nat) :=
  if c = SHIFT_FIGS then
    some ([], SHIFT_FIGS)
  else if c = SHIFT_LTRS then
    some ([], SHIFT_LTRS)
  else
    let conv := if shift_state = SHIFT_FIGS then ita2_ascii_figs[c]? else ita2_ascii_ltrs[c]?
    match conv with
    | some b => some ([b], shift_state)
    | none => none

/-- Successive calls of `ita2asc` on the bytes of a stream, as in the loop of
`main`: all the bytes written, and the final shift state; `none` as soon as one
call has no defined result. -/
def ita2asc_stream (shift_state : Nat) : List Nat → Option (List Nat × Nat)
  | [] => some ([], shift_state)
  | c :: cs =>
    match ita2asc shift_state c with
    | none => none
    | some r =>
      match ita2asc_stream r.2 cs with
      | none => none
      | some rest => some (r.1 ++ rest.1, rest.2)

/-! ## The tagged view of the encode table -/

/-- The four kinds of entry of `ascii_ita2`, as its comment gives them: the
high byte is the shift tag and the low byte the 5-bit code. -/
inductive Tag where
  | both (code : Nat)
  | figures (code : Nat)
  | letters (code : Nat)
  | unrepresentable
  deriving DecidableEq, Repr

/-- The tag of the `ascii_ita2` entry of the ASCII character `c`: `none` when
`c` is outside the table or the high byte is none of `0xFC` to `0xFF`. -/
def entry_tag (c : Nat) : Option Tag :=
  match ascii_ita2[c]? with
  | none => none
  | some e =>
    if e / 256 = ITA2_BOTH then some (Tag.both (e % 256))
    else if e / 256 = ITA2_FIGS then some (Tag.figures (e % 256))
    else if e / 256 = ITA2_LTRS then some (Tag.letters (e % 256))
    else if e / 256 = ITA2_NONE then some Tag.unrepresentable
    else none

/-- The character `c` has an ITA2 equivalent: its entry is tagged `Both`,
`Figures` or `Letters`. -/
def representable (c : Nat) : Bool :=
  match entry_tag c with
  | some (Tag.both _) => true
  | some (Tag.figures _) => true
  | some (Tag.letters _) => true
  | _ => false

/-- The bytes `ita2asc` writes when it is fed, from the shift state LETTERS,
the bytes `asc2ita` writes for the single character `c` from the shift state
LETTERS; `none` when the decoding has no defined result. -/
def roundtrip (c : Nat) : Option (List Nat) :=
  (ita2asc_stream SHIFT_LTRS (asc2ita SHIFT_LTRS c).1).map Prod.fst

/-- The byte is one of the two shift codes. -/
def is_shift (b : Nat) : Bool := b == SHIFT_FIGS || b == SHIFT_LTRS

/-- The shift codes of an output stream, in order. -/
def shift_codes (out : List Nat) : List Nat := out.filter is_shift

/-- Every shift code of the list differs from the shift state in force just
before it: `st` for the first one, then the shift code before it. -/
def alternating (st : Nat) : List Nat → Prop
  | [] => True
  | s :: rest => s ≠ st ∧ alternating s rest

/-- Whether a list of shift codes alternates can be computed. -/
instance alternating_decidable : ∀ (st : Nat) (l : List Nat), Decidable (alternating st l)
  | _, [] => isTrue trivial
  | st, s :: rest =>
    match alternating_decidable s rest with
    | isTrue h => if hs : s ≠ st then isTrue ⟨hs, h⟩ else isFalse (fun c => hs c.1)
    | isFalse h => isFalse (fun c => h c.2)

/-- The uppercase letter of a lowercase letter, and any other byte itself: the
conversion the comment of `ascii_ita2` announces. -/
def to_upper (c : Nat) : Nat := if 0x61 ≤ c ∧ c ≤ 0x7A then c - 0x20 else c

/-- The text a stream is expected to come back as: the bytes tagged
Unrepresentable removed, the lowercase letters replaced by their uppercase
letter. -/
def expected_text (s : List Nat) : List Nat :=
  (s.filter (fun c => decide (entry_tag c ≠ some Tag.unrepresentable))).map to_upper

/-- Every shift code of the stream is immediately followed by a byte that is no
shift code; in particular the stream does not end with a shift code. -/
def shift_followed : List Nat → Bool
  | [] => true
  | b :: rest =>
    (if is_shift b then
      (match rest with
       | [] => false
       | b2 :: _ => !is_shift b2)
     else true) && shift_followed rest

/-! ## Properties of the encoder -/

/-- The masking is idempotent, so a byte and its seven low bits read the same
entry of `ascii_ita2`. -/
theorem asc2ita_conv_mask (c : Nat) : asc2ita_conv (c &&& 0x7F) = asc2ita_conv c := by
  unfold asc2ita_conv
  congr 2
  simp [asc2ita_index, Nat.and_assoc]

/-- The routine `asc2ita` depends on its input only through the seven low bits. -/
theorem asc2ita_mask (st c : Nat) : asc2ita st (c &&& 0x7F) = asc2ita st c := by
  simp only [asc2ita, asc2ita_lsb, asc2ita_msb, asc2ita_conv_mask]

/-- The seven low bits of a byte are below 128. -/
theorem mask_lt (c : Nat) : c &&& 0x7F < 128 :=
  Nat.lt_of_le_of_lt Nat.and_le_right (by decide)

/-- A property of `asc2ita` that holds for the 128 table indices holds for every
input. -/
theorem asc2ita_forall (st : Nat) (P : List Nat × Nat → Prop)
    (h : ∀ i, i < 128 → P (asc2ita st i)) (c : Nat) : P (asc2ita st c) := by
  rw [← asc2ita_mask]
  exact h _ (mask_lt c)

set_option maxRecDepth 100000 in
/-- C1, as stated, fails: the lowercase letter `a` (0x61) is tagged Letters and
is not the double quote, yet its encoding decodes to `A` (0x41), not to `a`.
(The apostrophe, the double quote and the ampersand do not come back either:
their table codes 0x27 and 0x26 are no 5-bit codes, and decoding them has no
defined result.) -/
theorem roundtrip_lowercase_counterexample :
    (0x61 < 128 ∧ representable 0x61 = true ∧ 0x61 ≠ 0x22) ∧
    roundtrip 0x61 = some [0x41] ∧ roundtrip 0x61 ≠ some [0x61] ∧
    roundtrip 0x27 = none ∧ roundtrip 0x26 = none ∧ roundtrip 0x22 ≠ some [0x27] := by
  decide

set_option maxRecDepth 100000 in
set_option synthInstance.maxSize 1000 in
set_option synthInstance.maxHeartbeats 200000 in
/-- The round trip of every representable character but the three with a table
code above 31, computed entry by entry. -/
theorem roundtrip_table : ∀ c, c < 128 → representable c = true →
    c ≠ 0x22 → c ≠ 0x26 → c ≠ 0x27 →
    roundtrip c = some [if 0x61 ≤ c ∧ c ≤ 0x7A then c - 0x20 else c] := by
  decide

/-- C1, amended: for every ASCII byte `c` in 0..127 tagged Both, Figures or
Letters, other than the double quote (0x22), the ampersand (0x26) and the
apostrophe (0x27), encoding `c` from LETTERS and decoding the emitted bytes from
LETTERS gives exactly one byte: `c` itself when `c` is no lowercase letter, and
its uppercase letter `c - 0x20` when `c` is a lowercase letter. -/
theorem roundtrip_single (c : Nat) (hc : c < 128) (hr : representable c = true)
    (h22 : c ≠ 0x22) (h26 : c ≠ 0x26) (h27 : c ≠ 0x27) :
    roundtrip c = some [if 0x61 ≤ c ∧ c ≤ 0x7A then c - 0x20 else c] :=
  roundtrip_table c hc hr h22 h26 h27

set_option maxRecDepth 100000 in
/-- The amended round trip at the digit `3` and at the letter `q`. -/
theorem roundtrip_single_witness :
    (representable 0x33 = true ∧ representable 0x71 = true) ∧
    (roundtrip 0x33 = some [0x33]) ∧ (roundtrip 0x71 = some [0x51]) :=
  ⟨by decide,
   roundtrip_single 0x33 (by decide) (by decide) (by decide) (by decide) (by decide),
   roundtrip_single 0x71 (by decide) (by decide) (by decide) (by decide) (by decide)⟩

set_option maxRecDepth 100000 in
theorem entry_tag_msb_lsb : ∀ c, c < 128 →
    entry_tag c =
      (if asc2ita_msb c = ITA2_BOTH then some (Tag.both (asc2ita_lsb c))
       else if asc2ita_msb c = ITA2_FIGS then some (Tag.figures (asc2ita_lsb c))
       else if asc2ita_msb c = ITA2_LTRS then some (Tag.letters (asc2ita_lsb c))
       else some Tag.unrepresentable) := by
  decide

/-- C2, where the code departs from it: the table entry of the ampersand is
`0xFD26` and that of the apostrophe and of the double quote is `0xFD27`, so
`asc2ita` writes the bytes 0x26 and 0x27, which are no 5-bit values; the decode
table `ita2_ascii_figs` has the ampersand at code 0x1A and the apostrophe at
code 0x05. -/
theorem asc2ita_emits_non_five_bit :
    asc2ita SHIFT_LTRS 0x26 = ([0x1B, 0x26], SHIFT_FIGS) ∧
    asc2ita SHIFT_FIGS 0x26 = ([0x26], SHIFT_FIGS) ∧
    asc2ita SHIFT_FIGS 0x27 = ([0x27], SHIFT_FIGS) ∧
    asc2ita SHIFT_FIGS 0x22 = ([0x27], SHIFT_FIGS) ∧
    ¬ (0x26 < 32) ∧ ¬ (0x27 < 32) ∧
    ita2_ascii_figs[0x1A]? = some 0x26 ∧ ita2_ascii_figs[0x05]? = some 0x27 := by
  decide

set_option maxRecDepth 100000 in
/-- One call of `asc2ita` from LETTERS writes no shift code and stays in
LETTERS, or writes the one shift code FIGS and moves to FIGURES. -/
theorem asc2ita_shift_from_ltrs (c : Nat) :
    (shift_codes (asc2ita SHIFT_LTRS c).1 = [] ∧ (asc2ita SHIFT_LTRS c).2 = SHIFT_LTRS) ∨
    (shift_codes (asc2ita SHIFT_LTRS c).1 = [SHIFT_FIGS] ∧
      (asc2ita SHIFT_LTRS c).2 = SHIFT_FIGS) :=
  asc2ita_forall SHIFT_LTRS
    (fun r => (shift_codes r.1 = [] ∧ r.2 = SHIFT_LTRS) ∨
      (shift_codes r.1 = [SHIFT_FIGS] ∧ r.2 = SHIFT_FIGS)) (by decide) c

set_option maxRecDepth 100000 in
/-- One call of `asc2ita` from FIGURES writes no shift code and stays in
FIGURES, or writes the one shift code LTRS and moves to LETTERS. -/
theorem asc2ita_shift_from_figs (c : Nat) :
    (shift_codes (asc2ita SHIFT_FIGS c).1 = [] ∧ (asc2ita SHIFT_FIGS c).2 = SHIFT_FIGS) ∨
    (shift_codes (asc2ita SHIFT_FIGS c).1 = [SHIFT_LTRS] ∧
      (asc2ita SHIFT_FIGS c).2 = SHIFT_LTRS) :=
  asc2ita_forall SHIFT_FIGS
    (fun r => (shift_codes r.1 = [] ∧ r.2 = SHIFT_FIGS) ∨
      (shift_codes r.1 = [SHIFT_LTRS] ∧ r.2 = SHIFT_LTRS)) (by decide) c

/-- The shift codes of a concatenation. -/
theorem shift_codes_append (a b : List Nat) :
    shift_codes (a ++ b) = shift_codes a ++ shift_codes b := by
  simp [shift_codes]

/-- From either shift state, the shift codes written by a run of `asc2ita` calls
alternate, the first one differing from the starting state. -/
theorem asc2ita_stream_alternating (cs : List Nat) :
    alternating SHIFT_LTRS (shift_codes (asc2ita_stream SHIFT_LTRS cs).1) ∧
    alternating SHIFT_FIGS (shift_codes (asc2ita_stream SHIFT_FIGS cs).1) := by
  induction cs with
  | nil => exact ⟨trivial, trivial⟩
  | cons c cs ih =>
    obtain ⟨ihL, ihF⟩ := ih
    have hne : SHIFT_FIGS ≠ SHIFT_LTRS := by decide
    constructor
    · simp only [asc2ita_stream, shift_codes_append]
      rcases asc2ita_shift_from_ltrs c with ⟨h1, h2⟩ | ⟨h1, h2⟩
      · rw [h1, h2]; exact ihL
      · rw [h1, h2]; exact ⟨hne, ihF⟩
    · simp only [asc2ita_stream, shift_codes_append]
      rcases asc2ita_shift_from_figs c with ⟨h1, h2⟩ | ⟨h1, h2⟩
      · rw [h1, h2]; exact ihF
      · rw [h1, h2]; exact ⟨hne.symm, ihL⟩

/-- Every element of `shift_codes out` is one of the two shift codes. -/
theorem mem_shift_codes (out : List Nat) (b : Nat) (h : b ∈ shift_codes out) :
    b = SHIFT_FIGS ∨ b = SHIFT_LTRS := by
  have h2 := (List.mem_filter.mp h).2
  simpa [is_shift] using h2

/-- C3: for every sequence of input bytes encoded by successive `asc2ita` calls
from LETTERS, each shift code of the output differs from the shift state in
force just before it (LETTERS at first, then the previous shift code), so the
shift codes strictly alternate; and the first shift code, if any, is FIGS. -/
theorem asc2ita_no_redundant_shift (cs : List Nat) :
    alternating SHIFT_LTRS (shift_codes (asc2ita_stream SHIFT_LTRS cs).1) ∧
    ((shift_codes (asc2ita_stream SHIFT_LTRS cs).1).head? = none ∨
     (shift_codes (asc2ita_stream SHIFT_LTRS cs).1).head? = some SHIFT_FIGS) := by
  have hA := (asc2ita_stream_alternating cs).1
  refine ⟨hA, ?_⟩
  have hM := mem_shift_codes (asc2ita_stream SHIFT_LTRS cs).1
  revert hA hM
  cases shift_codes (asc2ita_stream SHIFT_LTRS cs).1 with
  | nil => intro _ _; exact Or.inl rfl
  | cons s rest =>
    intro hA hM
    right
    rcases hM s (List.mem_cons_self s rest) with h | h
    · simp [h]
    · exact absurd h hA.1

/-- C4: for every 7-bit byte `c` and shift state `st`: tagged Both(code), the
output is `[code]` and the state stays `st`; tagged Figures(code), the output is
`[0x1B, code]` from LETTERS and `[code]` from FIGURES, and the state is FIGURES
afterwards; tagged Letters(code), the output is `[0x1F, code]` from FIGURES and
`[code]` from LETTERS, and the state is LETTERS afterwards. -/
theorem asc2ita_tagged_rule (c st code : Nat) (hc : c < 128)
    (hst : st = SHIFT_LTRS ∨ st = SHIFT_FIGS) :
    (entry_tag c = some (Tag.both code) → asc2ita st c = ([code], st)) ∧
    (entry_tag c = some (Tag.figures code) →
      asc2ita st c = (if st = SHIFT_LTRS then [0x1B, code] else [code], SHIFT_FIGS)) ∧
    (entry_tag c = some (Tag.letters code) →
      asc2ita st c = (if st = SHIFT_FIGS then [0x1F, code] else [code], SHIFT_LTRS)) := by
  have hT := entry_tag_msb_lsb c hc
  refine ⟨?_, ?_, ?_⟩ <;> intro h <;> rw [h] at hT <;> unfold asc2ita <;>
    split_ifs at hT <;> rcases hst with rfl | rfl <;>
    simp_all [SHIFT_LTRS, SHIFT_FIGS]

set_option maxRecDepth 100000 in
/-- The tagged rule at the digit `3`, tagged Figures(0x01), from LETTERS and
from FIGURES, at the letter `A`, tagged Letters(0x03), from FIGURES, and at the
space, tagged Both(0x04). -/
theorem asc2ita_tagged_rule_witness :
    asc2ita SHIFT_LTRS 0x33 = ([0x1B, 0x01], SHIFT_FIGS) ∧
    asc2ita SHIFT_FIGS 0x33 = ([0x01], SHIFT_FIGS) ∧
    asc2ita SHIFT_FIGS 0x41 = ([0x1F, 0x03], SHIFT_LTRS) ∧
    asc2ita SHIFT_FIGS 0x20 = ([0x04], SHIFT_FIGS) :=
  ⟨(asc2ita_tagged_rule 0x33 SHIFT_LTRS 0x01 (by decide) (Or.inl rfl)).2.1 (by decide),
   (asc2ita_tagged_rule 0x33 SHIFT_FIGS 0x01 (by decide) (Or.inr rfl)).2.1 (by decide),
   (asc2ita_tagged_rule 0x41 SHIFT_FIGS 0x03 (by decide) (Or.inr rfl)).2.2 (by decide),
   (asc2ita_tagged_rule 0x20 SHIFT_FIGS 0x04 (by decide) (Or.inr rfl)).1 (by decide)⟩

/-- C5: for every 7-bit byte tagged Unrepresentable and every shift state,
`asc2ita` writes no byte and leaves the shift state unchanged. -/
theorem asc2ita_unrepresentable (c st : Nat) (hc : c < 128)
    (h : entry_tag c = some Tag.unrepresentable) : asc2ita st c = ([], st) := by
  have hT := entry_tag_msb_lsb c hc
  rw [h] at hT
  unfold asc2ita
  split_ifs at hT ⊢ <;> first | rfl | simp_all

set_option maxRecDepth 100000 in
/-- The characters `#`, `@` and `<` are tagged Unrepresentable (their entry is
`0xFFFF`) and produce no output, from LETTERS and from FIGURES. -/
theorem asc2ita_unrepresentable_witness :
    (ascii_ita2[0x23]? = some 0xFFFF ∧ ascii_ita2[0x40]? = some 0xFFFF ∧
      ascii_ita2[0x3C]? = some 0xFFFF) ∧
    asc2ita SHIFT_LTRS 0x23 = ([], SHIFT_LTRS) ∧
    asc2ita SHIFT_FIGS 0x40 = ([], SHIFT_FIGS) ∧
    asc2ita SHIFT_FIGS 0x3C = ([], SHIFT_FIGS) :=
  ⟨by decide,
   asc2ita_unrepresentable 0x23 SHIFT_LTRS (by decide) (by decide),
   asc2ita_unrepresentable 0x40 SHIFT_FIGS (by decide) (by decide),
   asc2ita_unrepresentable 0x3C SHIFT_FIGS (by decide) (by decide)⟩

/-! ## Properties of the decoder -/

/-- C6: from every shift state, `ita2asc` on the code 0x1B writes nothing and
leaves the shift state FIGURES, and on the code 0x1F writes nothing and leaves
the shift state LETTERS. -/
theorem ita2asc_shift_command (st : Nat) :
    ita2asc st 0x1B = some ([], SHIFT_FIGS) ∧ ita2asc st 0x1F = some ([], SHIFT_LTRS) := by
  constructor <;> simp [ita2asc, SHIFT_FIGS, SHIFT_LTRS]

set_option maxRecDepth 100000 in
set_option synthInstance.maxSize 1000 in
set_option synthInstance.maxHeartbeats 200000 in
/-- The 30 data codes, decoded entry by entry in both shift states. -/
theorem ita2asc_data_table : ∀ k, k < 32 → k ≠ 0x1B → k ≠ 0x1F →
    (ita2_ascii_figs[k]? = some (ita2_ascii_figs.getD k 0) ∧
      ita2asc SHIFT_FIGS k = some ([ita2_ascii_figs.getD k 0], SHIFT_FIGS)) ∧
    (ita2_ascii_ltrs[k]? = some (ita2_ascii_ltrs.getD k 0) ∧
      ita2asc SHIFT_LTRS k = some ([ita2_ascii_ltrs.getD k 0], SHIFT_LTRS)) := by
  decide

/-- C7: for every code `k` in 0..31 other than 0x1B and 0x1F, `ita2asc` writes
exactly one byte, the entry `k` of `ita2_ascii_figs` in the shift state FIGURES
and the entry `k` of `ita2_ascii_ltrs` in the shift state LETTERS, and the shift
state after the call is the one before it. -/
theorem ita2asc_data_code (k : Nat) (hk : k < 32) (hF : k ≠ 0x1B) (hL : k ≠ 0x1F) :
    (∃ b, ita2_ascii_figs[k]? = some b ∧
      ita2asc SHIFT_FIGS k = some ([b], SHIFT_FIGS)) ∧
    (∃ b, ita2_ascii_ltrs[k]? = some b ∧
      ita2asc SHIFT_LTRS k = some ([b], SHIFT_LTRS)) :=
  ⟨⟨_, (ita2asc_data_table k hk hF hL).1⟩, ⟨_, (ita2asc_data_table k hk hF hL).2⟩⟩

/-- The data code 0x01 is `3` in FIGURES and `E` in LETTERS. -/
theorem ita2asc_data_code_witness :
    (1 < 32 ∧ 1 ≠ 0x1B ∧ 1 ≠ 0x1F) ∧
    (∃ b, ita2_ascii_figs[1]? = some b ∧
      ita2asc SHIFT_FIGS 1 = some ([b], SHIFT_FIGS)) ∧
    (∃ b, ita2_ascii_ltrs[1]? = some b ∧
      ita2asc SHIFT_LTRS 1 = some ([b], SHIFT_LTRS)) :=
  ⟨by decide, ita2asc_data_code 1 (by decide) (by decide) (by decide)⟩

/-- C8, where the code departs from it: `ita2asc` has no test on the range of
its input. At the byte 200 it takes the `default` branch and reads entry 200 of
a table of 32 entries, in either shift state; that read is outside the table
and has no defined result, and nothing in the routine reports an error. -/
theorem ita2asc_out_of_range_unchecked :
    ita2_ascii_ltrs.length = 32 ∧ ita2_ascii_figs.length = 32 ∧
    ita2_ascii_ltrs[200]? = none ∧ ita2_ascii_figs[200]? = none ∧
    ita2asc SHIFT_LTRS 200 = none ∧ ita2asc SHIFT_FIGS 200 = none := by
  decide

/-! ## Masking and case folding -/

/-- C9: for every input byte `b` and every shift state, `asc2ita` on `b` writes
the same bytes and leaves the same shift state as on `b` with its high bit
cleared, and the index of the table lookup is below 128. -/
theorem asc2ita_seven_bit (st b : Nat) :
    asc2ita st b = asc2ita st (b &&& 0x7F) ∧ asc2ita_index b < 128 :=
  ⟨(asc2ita_mask st b).symm, mask_lt b⟩

set_option maxRecDepth 100000 in
/-- The entries of the lowercase letters are those of the uppercase letters. -/
theorem ascii_ita2_lowercase : ∀ c, c < 128 → 0x61 ≤ c → c ≤ 0x7A →
    ascii_ita2[c]? = ascii_ita2[c - 0x20]? ∧ ascii_ita2[c]? ≠ none ∧
    asc2ita_conv c = asc2ita_conv (c - 0x20) := by
  decide

/-- C10: for every lowercase letter `c` in 0x61..0x7A the `ascii_ita2` entry of
`c` is the entry of its uppercase letter `c - 0x20`, so from every shift state
`asc2ita` writes the same bytes and leaves the same state for both. -/
theorem asc2ita_case_fold (c : Nat) (h1 : 0x61 ≤ c) (h2 : c ≤ 0x7A) :
    (ascii_ita2[c]? = ascii_ita2[c - 0x20]? ∧ ascii_ita2[c]? ≠ none) ∧
    ∀ st, asc2ita st c = asc2ita st (c - 0x20) := by
  have h := ascii_ita2_lowercase c (by omega) h1 h2
  refine ⟨⟨h.1, h.2.1⟩, fun st => ?_⟩
  simp only [asc2ita, asc2ita_lsb, asc2ita_msb, h.2.2]

set_option maxRecDepth 100000 in
/-- The letter `q` (0x71) has the entry of `Q` (0x51), `0xFE17`, and is encoded
like it from FIGURES. -/
theorem asc2ita_case_fold_witness :
    (0x61 ≤ 0x71 ∧ 0x71 ≤ 0x7A) ∧ ascii_ita2[0x71]? = some 0xFE17 ∧
    asc2ita SHIFT_FIGS 0x71 = ([0x1F, 0x17], SHIFT_LTRS) ∧
    asc2ita SHIFT_FIGS 0x51 = ([0x1F, 0x17], SHIFT_LTRS) := by
  have h := asc2ita_case_fold 0x71 (by decide) (by decide)
  refine ⟨by decide, by decide, ?_, by decide⟩
  rw [h.2 SHIFT_FIGS]
  decide

/-! ## The encoder on tagged characters -/

set_option maxRecDepth 100000 in
/-- The low byte of every entry of `ascii_ita2` is neither of the two shift
codes. -/
theorem lsb_not_shift_table : ∀ c, c < 128 → is_shift (asc2ita_lsb c) = false := by
  decide

/-- The code of a tagged entry is the `lsb` that `asc2ita` computes, and it is no
shift code. -/
theorem entry_tag_code (c k : Nat) (hc : c < 128)
    (h : entry_tag c = some (Tag.both k) ∨ entry_tag c = some (Tag.figures k) ∨
      entry_tag c = some (Tag.letters k)) :
    k = asc2ita_lsb c ∧ is_shift k = false := by
  have hT := entry_tag_msb_lsb c hc
  have hk : k = asc2ita_lsb c := by
    rcases h with h | h | h <;> rw [h] at hT <;> split_ifs at hT <;> simp_all
  exact ⟨hk, hk ▸ lsb_not_shift_table c hc⟩

/-- The routine `asc2ita` on a character tagged Both. -/
theorem asc2ita_both (c st k : Nat) (hc : c < 128) (h : entry_tag c = some (Tag.both k)) :
    asc2ita st c = ([k], st) := by
  have hT := entry_tag_msb_lsb c hc
  rw [h] at hT
  unfold asc2ita
  split_ifs at hT <;> simp_all

/-- The routine `asc2ita` on a character tagged Figures. -/
theorem asc2ita_figures (c st k : Nat) (hc : c < 128)
    (h : entry_tag c = some (Tag.figures k)) :
    asc2ita st c = (if st = SHIFT_FIGS then [k] else [SHIFT_FIGS, k], SHIFT_FIGS) := by
  have hT := entry_tag_msb_lsb c hc
  rw [h] at hT
  unfold asc2ita
  split_ifs at hT <;> simp_all
  split_ifs <;> rfl

/-- The routine `asc2ita` on a character tagged Letters. -/
theorem asc2ita_letters (c st k : Nat) (hc : c < 128)
    (h : entry_tag c = some (Tag.letters k)) :
    asc2ita st c = (if st = SHIFT_LTRS then [k] else [SHIFT_LTRS, k], SHIFT_LTRS) := by
  have hT := entry_tag_msb_lsb c hc
  rw [h] at hT
  unfold asc2ita
  split_ifs at hT <;> simp_all
  split_ifs <;> rfl

set_option maxRecDepth 100000 in
/-- The double quote and the apostrophe read the same table entry. -/
theorem double_quote_conv : asc2ita_conv 0x22 = asc2ita_conv 0x27 := by
  decide

set_option maxRecDepth 100000 in
/-- C11: the `ascii_ita2` entry of the double quote (0x22) is the entry of the
apostrophe (0x27), so from every shift state `asc2ita` writes the same bytes and
leaves the same state for both. -/
theorem asc2ita_double_quote :
    (ascii_ita2[0x22]? = ascii_ita2[0x27]? ∧ ascii_ita2[0x22]? ≠ none) ∧
    ∀ st, asc2ita st 0x22 = asc2ita st 0x27 := by
  refine ⟨by decide, fun st => ?_⟩
  simp only [asc2ita, asc2ita_lsb, asc2ita_msb, double_quote_conv]

/-- C12: for every pair of 7-bit bytes both tagged Figures, encoding the first
and then the second from LETTERS writes the shift code 0x1B once, in front of
the two codes; for every pair both tagged Letters, encoding them from FIGURES
writes the shift code 0x1F once, in front of the two codes. -/
theorem asc2ita_one_shift_for_two (c1 c2 k1 k2 : Nat) (h1 : c1 < 128) (h2 : c2 < 128) :
    (entry_tag c1 = some (Tag.figures k1) → entry_tag c2 = some (Tag.figures k2) →
      (asc2ita_stream SHIFT_LTRS [c1, c2]).1 = [0x1B, k1, k2] ∧
      shift_codes (asc2ita_stream SHIFT_LTRS [c1, c2]).1 = [0x1B]) ∧
    (entry_tag c1 = some (Tag.letters k1) → entry_tag c2 = some (Tag.letters k2) →
      (asc2ita_stream SHIFT_FIGS [c1, c2]).1 = [0x1F, k1, k2] ∧
      shift_codes (asc2ita_stream SHIFT_FIGS [c1, c2]).1 = [0x1F]) := by
  constructor
  · intro t1 t2
    have n1 := (entry_tag_code c1 k1 h1 (Or.inr (Or.inl t1))).2
    have n2 := (entry_tag_code c2 k2 h2 (Or.inr (Or.inl t2))).2
    have e : (asc2ita_stream SHIFT_LTRS [c1, c2]).1 = [0x1B, k1, k2] := by
      simp [asc2ita_stream, asc2ita_figures c1 _ k1 h1 t1, asc2ita_figures c2 _ k2 h2 t2,
        SHIFT_LTRS, SHIFT_FIGS]
    refine ⟨e, ?_⟩
    rw [e]
    have s1 : is_shift 0x1B = true := by decide
    simp [shift_codes, List.filter, n1, n2, s1]
  · intro t1 t2
    have n1 := (entry_tag_code c1 k1 h1 (Or.inr (Or.inr t1))).2
    have n2 := (entry_tag_code c2 k2 h2 (Or.inr (Or.inr t2))).2
    have e : (asc2ita_stream SHIFT_FIGS [c1, c2]).1 = [0x1F, k1, k2] := by
      simp [asc2ita_stream, asc2ita_letters c1 _ k1 h1 t1, asc2ita_letters c2 _ k2 h2 t2,
        SHIFT_LTRS, SHIFT_FIGS]
    refine ⟨e, ?_⟩
    rw [e]
    have s1 : is_shift 0x1F = true := by decide
    simp [shift_codes, List.filter, n1, n2, s1]

set_option maxRecDepth 100000 in
/-- The digits `3` and `4` from LETTERS share one FIGS shift, and the letters `A`
and `T` from FIGURES share one LTRS shift. -/
theorem asc2ita_one_shift_for_two_witness :
    ((asc2ita_stream SHIFT_LTRS [0x33, 0x34]).1 = [0x1B, 0x01, 0x0A] ∧
      shift_codes (asc2ita_stream SHIFT_LTRS [0x33, 0x34]).1 = [0x1B]) ∧
    ((asc2ita_stream SHIFT_FIGS [0x41, 0x54]).1 = [0x1F, 0x03, 0x10] ∧
      shift_codes (asc2ita_stream SHIFT_FIGS [0x41, 0x54]).1 = [0x1F]) :=
  ⟨(asc2ita_one_shift_for_two 0x33 0x34 0x01 0x0A (by decide) (by decide)).1
      (by decide) (by decide),
   (asc2ita_one_shift_for_two 0x41 0x54 0x03 0x10 (by decide) (by decide)).2
      (by decide) (by decide)⟩

/-- C13: for Letters-tagged bytes `a` and `b`, a Both-tagged byte `s` and a
Figures-tagged byte `f`, encoding `[a, b, s, f]` from LETTERS writes exactly
`[code a, code b, code s, 0x1B, code f]`: the FIGS shift comes only in front of
the first character that needs it. -/
theorem asc2ita_deferred_shift (a b s f ka kb ks kf : Nat)
    (ha : a < 128) (hb : b < 128) (hs : s < 128) (hf : f < 128)
    (ta : entry_tag a = some (Tag.letters ka)) (tb : entry_tag b = some (Tag.letters kb))
    (ts : entry_tag s = some (Tag.both ks)) (tf : entry_tag f = some (Tag.figures kf)) :
    (asc2ita_stream SHIFT_LTRS [a, b, s, f]).1 = [ka, kb, ks, 0x1B, kf] := by
  simp [asc2ita_stream, asc2ita_letters a _ ka ha ta, asc2ita_letters b _ kb hb tb,
    asc2ita_both s _ ks hs ts, asc2ita_figures f _ kf hf tf, SHIFT_LTRS, SHIFT_FIGS]

set_option maxRecDepth 100000 in
/-- The string `AT 3` is encoded as `[0x03, 0x10, 0x04, 0x1B, 0x01]`. -/
theorem asc2ita_deferred_shift_witness :
    (asc2ita_stream SHIFT_LTRS [0x41, 0x54, 0x20, 0x33]).1 = [0x03, 0x10, 0x04, 0x1B, 0x01] :=
  asc2ita_deferred_shift 0x41 0x54 0x20 0x33 0x03 0x10 0x04 0x01
    (by decide) (by decide) (by decide) (by decide)
    (by decide) (by decide) (by decide) (by decide)

/-! ## The decoder on streams -/

/-- Decoding a concatenation: the second part is decoded from the shift state the
first part ends in, and the outputs are concatenated. -/
theorem ita2asc_stream_append (xs ys : List Nat) : ∀ st,
    ita2asc_stream st (xs ++ ys) =
      (ita2asc_stream st xs).bind (fun r =>
        (ita2asc_stream r.2 ys).map (fun r2 => (r.1 ++ r2.1, r2.2))) := by
  induction xs with
  | nil =>
    intro st
    cases h : ita2asc_stream st ys <;> simp [ita2asc_stream, h]
  | cons x xs ih =>
    intro st
    simp only [List.cons_append, ita2asc_stream]
    cases hx : ita2asc st x with
    | none => simp
    | some r =>
      cases h1 : ita2asc_stream r.2 xs with
      | none => simp [ih, h1]
      | some r1 =>
        cases h2 : ita2asc_stream r1.2 ys with
        | none => simp [ih, h1, h2]
        | some r2 => simp [ih, h1, h2, List.append_assoc]

set_option maxRecDepth 100000 in
set_option synthInstance.maxSize 1000 in
set_option synthInstance.maxHeartbeats 200000 in
/-- The 32 codes, decoded one by one in both shift states: a shift code writes
nothing, a data code writes its table entry, which is below 0x80. -/
theorem ita2asc_code_table : ∀ k, k < 32 →
    (ita2asc SHIFT_LTRS k = some ([], SHIFT_FIGS) ∨ ita2asc SHIFT_LTRS k = some ([], SHIFT_LTRS) ∨
      (ita2asc SHIFT_LTRS k = some ([ita2_ascii_ltrs.getD k 0], SHIFT_LTRS) ∧
        ita2_ascii_ltrs.getD k 0 < 0x80)) ∧
    (ita2asc SHIFT_FIGS k = some ([], SHIFT_FIGS) ∨ ita2asc SHIFT_FIGS k = some ([], SHIFT_LTRS) ∨
      (ita2asc SHIFT_FIGS k = some ([ita2_ascii_figs.getD k 0], SHIFT_FIGS) ∧
        ita2_ascii_figs.getD k 0 < 0x80)) := by
  decide

/-- On a code in 0..31 `ita2asc` has a defined result, writes only bytes below
0x80 and ends in one of the two shift states. -/
theorem ita2asc_five_bit (st k : Nat) (hst : st = SHIFT_LTRS ∨ st = SHIFT_FIGS)
    (hk : k < 32) :
    ∃ r, ita2asc st k = some r ∧ (r.2 = SHIFT_LTRS ∨ r.2 = SHIFT_FIGS) ∧
      ∀ b ∈ r.1, b < 0x80 := by
  have h := ita2asc_code_table k hk
  rcases hst with rfl | rfl
  · rcases h.1 with h | h | ⟨h, hb⟩
    · exact ⟨_, h, Or.inr rfl, by simp⟩
    · exact ⟨_, h, Or.inl rfl, by simp⟩
    · exact ⟨_, h, Or.inl rfl, by simpa using hb⟩
  · rcases h.2 with h | h | ⟨h, hb⟩
    · exact ⟨_, h, Or.inr rfl, by simp⟩
    · exact ⟨_, h, Or.inl rfl, by simp⟩
    · exact ⟨_, h, Or.inr rfl, by simpa using hb⟩

/-- On a stream of codes in 0..31 the decoder has a defined result and ends in one
of the two shift states. -/
theorem ita2asc_stream_five_bit (xs : List Nat) : ∀ st,
    (st = SHIFT_LTRS ∨ st = SHIFT_FIGS) → (∀ x ∈ xs, x < 32) →
    ∃ r, ita2asc_stream st xs = some r ∧ (r.2 = SHIFT_LTRS ∨ r.2 = SHIFT_FIGS) := by
  induction xs with
  | nil => intro st hst _; exact ⟨_, rfl, hst⟩
  | cons x xs ih =>
    intro st hst hx
    obtain ⟨r, hr, hr2, _⟩ := ita2asc_five_bit st x hst (hx x (List.mem_cons_self x xs))
    obtain ⟨r1, hr1, hr12⟩ := ih r.2 hr2 (fun y hy => hx y (List.mem_cons_of_mem x hy))
    exact ⟨(r.1 ++ r1.1, r1.2), by simp [ita2asc_stream, hr, hr1], hr12⟩

/-- In either shift state, the shift code of that state changes nothing. -/
theorem ita2asc_own_shift (st : Nat) (hst : st = SHIFT_LTRS ∨ st = SHIFT_FIGS) :
    ita2asc st st = some ([], st) := by
  rcases hst with rfl | rfl <;> decide

/-- C14: for sequences `xs` and `ys` of codes in 0..31, if decoding `xs` from
LETTERS ends in the shift state `st`, then inserting the shift code of `st` (the
state is kept as its own shift code) between `xs` and `ys` changes neither the
decoded bytes nor the final shift state, and both decodings are defined. -/
theorem ita2asc_redundant_shift (xs ys out : List Nat) (st : Nat)
    (hxs : ∀ x ∈ xs, x < 32) (hys : ∀ y ∈ ys, y < 32)
    (h : ita2asc_stream SHIFT_LTRS xs = some (out, st)) :
    ∃ r, ita2asc_stream SHIFT_LTRS (xs ++ ys) = some r ∧
      ita2asc_stream SHIFT_LTRS (xs ++ [st] ++ ys) = some r := by
  obtain ⟨r0, hr0, hst0⟩ := ita2asc_stream_five_bit xs SHIFT_LTRS (Or.inl rfl) hxs
  have hst : st = SHIFT_LTRS ∨ st = SHIFT_FIGS := by
    rw [h] at hr0
    cases hr0
    exact hst0
  obtain ⟨r1, hr1, _⟩ := ita2asc_stream_five_bit ys st hst hys
  refine ⟨(out ++ r1.1, r1.2), ?_, ?_⟩
  · simp [ita2asc_stream_append, h, hr1]
  · rw [List.append_assoc, ita2asc_stream_append]
    simp [h, ita2asc_stream, ita2asc_own_shift st hst, hr1]

set_option maxRecDepth 100000 in
/-- The stream `[0x03, 0x10, 0x1F, 0x03]` decodes like `[0x03, 0x10, 0x03]`, to
`ATA`. -/
theorem ita2asc_redundant_shift_witness :
    ita2asc_stream SHIFT_LTRS [0x03, 0x10, 0x1F, 0x03] =
      some ([0x41, 0x54, 0x41], SHIFT_LTRS) ∧
    ∃ r, ita2asc_stream SHIFT_LTRS ([0x03, 0x10] ++ [0x03]) = some r ∧
      ita2asc_stream SHIFT_LTRS ([0x03, 0x10] ++ [SHIFT_LTRS] ++ [0x03]) = some r :=
  ⟨by decide,
   ita2asc_redundant_shift [0x03, 0x10] [0x03] [0x41, 0x54] SHIFT_LTRS
    (by decide) (by decide) (by decide)⟩

/-- C15: for every code `k` in 0..31 other than 0x1B and 0x1F and every starting
shift state, decoding `[0x1B, k]` writes exactly the one byte
`ita2_ascii_figs[k]` (and ends in FIGURES). -/
theorem ita2asc_figs_then_code (k st : Nat) (hk : k < 32) (hF : k ≠ 0x1B) (hL : k ≠ 0x1F) :
    ∃ b, ita2_ascii_figs[k]? = some b ∧
      ita2asc_stream st [0x1B, k] = some ([b], SHIFT_FIGS) := by
  obtain ⟨hb, hd⟩ := (ita2asc_data_table k hk hF hL).1
  refine ⟨_, hb, ?_⟩
  have hs : ita2asc st 0x1B = some ([], SHIFT_FIGS) := by simp [ita2asc, SHIFT_FIGS]
  simp [ita2asc_stream, hs, hd]

set_option maxRecDepth 100000 in
/-- From LETTERS, `[0x1B, 0x01]` decodes to `3` (0x33), not to `E` (0x45), the
entry of the code 0x01 in the LETTERS table. -/
theorem ita2asc_figs_then_code_witness :
    (ita2asc_stream SHIFT_LTRS [0x1B, 0x01] = some ([0x33], SHIFT_FIGS) ∧
      ita2_ascii_ltrs[0x01]? = some 0x45) ∧
    ∃ b, ita2_ascii_figs[0x01]? = some b ∧
      ita2asc_stream SHIFT_LTRS [0x1B, 0x01] = some ([b], SHIFT_FIGS) :=
  ⟨by decide, ita2asc_figs_then_code 0x01 SHIFT_LTRS (by decide) (by decide) (by decide)⟩

/-- C16: for every code `k` in 0..31 and every shift state, `ita2asc` has a
defined result and every byte it writes is below 0x80; the values 0xFD and 0xFE
stored at the indices 27 and 31 of both decode tables are not written. -/
theorem ita2asc_seven_bit_output (k st : Nat) (hk : k < 32)
    (hst : st = SHIFT_LTRS ∨ st = SHIFT_FIGS) :
    (∃ r, ita2asc st k = some r ∧ ∀ b ∈ r.1, b < 0x80 ∧ b ≠ 0xFD ∧ b ≠ 0xFE) ∧
    (ita2_ascii_ltrs[27]? = some 0xFD ∧ ita2_ascii_ltrs[31]? = some 0xFE ∧
      ita2_ascii_figs[27]? = some 0xFD ∧ ita2_ascii_figs[31]? = some 0xFE) := by
  obtain ⟨r, hr, _, hb⟩ := ita2asc_five_bit st k hst hk
  refine ⟨⟨r, hr, fun b hm => ?_⟩, by decide⟩
  have := hb b hm
  omega

set_option maxRecDepth 100000 in
/-- The codes 27 and 31 write nothing in FIGURES, and the code 26 writes `&`
(0x26) there. -/
theorem ita2asc_seven_bit_output_witness :
    (ita2asc SHIFT_FIGS 27 = some ([], SHIFT_FIGS) ∧
      ita2asc SHIFT_FIGS 31 = some ([], SHIFT_LTRS) ∧
      ita2asc SHIFT_FIGS 26 = some ([0x26], SHIFT_FIGS)) ∧
    (∃ r, ita2asc SHIFT_FIGS 27 = some r ∧ ∀ b ∈ r.1, b < 0x80 ∧ b ≠ 0xFD ∧ b ≠ 0xFE) ∧
    (∃ r, ita2asc SHIFT_LTRS 31 = some r ∧ ∀ b ∈ r.1, b < 0x80 ∧ b ≠ 0xFD ∧ b ≠ 0xFE) :=
  ⟨by decide,
   (ita2asc_seven_bit_output 27 SHIFT_FIGS (by decide) (Or.inr rfl)).1,
   (ita2asc_seven_bit_output 31 SHIFT_LTRS (by decide) (Or.inl rfl)).1⟩

/-! ## The encode table against the decode tables -/

set_option maxRecDepth 100000 in
set_option synthInstance.maxSize 1000 in
set_option synthInstance.maxHeartbeats 200000 in
/-- The data codes whose two decode entries agree, checked code by code against
the tag of the decoded byte. -/
theorem both_tag_table : ∀ k, k < 32 → k ≠ 0x1B → k ≠ 0x1F →
    (ita2_ascii_ltrs[k]? = some (ita2_ascii_ltrs.getD k 0) ∧
      ita2_ascii_figs[k]? = some (ita2_ascii_figs.getD k 0)) ∧
    (ita2_ascii_ltrs.getD k 0 = ita2_ascii_figs.getD k 0 ↔
      entry_tag (ita2_ascii_ltrs.getD k 0) = some (Tag.both k)) ∧
    (ita2_ascii_ltrs.getD k 0 = ita2_ascii_figs.getD k 0 ↔
      entry_tag (ita2_ascii_figs.getD k 0) = some (Tag.both k)) ∧
    (ita2_ascii_ltrs.getD k 0 = ita2_ascii_figs.getD k 0 ↔
      (k = 0x00 ∨ k = 0x02 ∨ k = 0x04 ∨ k = 0x08)) ∧
    (ita2_ascii_ltrs.getD k 0 = ita2_ascii_figs.getD k 0 ↔
      (ita2asc SHIFT_LTRS k).map Prod.fst = (ita2asc SHIFT_FIGS k).map Prod.fst) := by
  decide

/-- C17: for every code `k` in 0..31 other than 0x1B and 0x1F, with `bl` its
entry in `ita2_ascii_ltrs` and `bf` its entry in `ita2_ascii_figs`: `bl = bf`
(`ita2asc` writes the same byte for `k` in either shift state) exactly when the
`ascii_ita2` entry of that byte is tagged Both with the code `k`, and exactly
when `k` is one of 0x00, 0x02, 0x04 and 0x08. -/
theorem both_tag_agrees (k bl bf : Nat) (hk : k < 32) (hF : k ≠ 0x1B) (hL : k ≠ 0x1F)
    (hl : ita2_ascii_ltrs[k]? = some bl) (hf : ita2_ascii_figs[k]? = some bf) :
    (bl = bf ↔ entry_tag bl = some (Tag.both k)) ∧
    (bl = bf ↔ entry_tag bf = some (Tag.both k)) ∧
    (bl = bf ↔ (k = 0x00 ∨ k = 0x02 ∨ k = 0x04 ∨ k = 0x08)) ∧
    (bl = bf ↔ (ita2asc SHIFT_LTRS k).map Prod.fst = (ita2asc SHIFT_FIGS k).map Prod.fst) := by
  obtain ⟨⟨el, ef⟩, h⟩ := both_tag_table k hk hF hL
  rw [hl] at el
  rw [hf] at ef
  cases el
  cases ef
  exact h

set_option maxRecDepth 100000 in
/-- The code 0x04 is the space in both tables and the space is tagged
Both(0x04); the code 0x01 is `E` or `3`, and `E` is not tagged Both. -/
theorem both_tag_agrees_witness :
    ((0x20 = 0x20 ↔ entry_tag 0x20 = some (Tag.both 0x04)) ∧
      entry_tag 0x20 = some (Tag.both 0x04)) ∧
    ((0x45 = 0x33 ↔ entry_tag 0x45 = some (Tag.both 0x01)) ∧
      entry_tag 0x45 = some (Tag.letters 0x01)) :=
  ⟨⟨(both_tag_agrees 0x04 0x20 0x20 (by decide) (by decide) (by decide)
      (by decide) (by decide)).1, by decide⟩,
   ⟨(both_tag_agrees 0x01 0x45 0x33 (by decide) (by decide) (by decide)
      (by decide) (by decide)).1, by decide⟩⟩

/-! ## The whole stream, encoded then decoded -/

set_option maxRecDepth 100000 in
set_option synthInstance.maxSize 1000 in
set_option synthInstance.maxHeartbeats 200000 in
/-- One character encoded and decoded from the same shift state, for each table
entry but the three with a code above 31: the decoder writes the expected text,
follows the encoder into its shift state, and is fed 5-bit values only. -/
theorem roundtrip_step_table : ∀ c, c < 128 → c ≠ 0x22 → c ≠ 0x26 → c ≠ 0x27 →
    (ita2asc_stream SHIFT_LTRS (asc2ita SHIFT_LTRS c).1 =
        some (expected_text [c], (asc2ita SHIFT_LTRS c).2) ∧
      ∀ b ∈ (asc2ita SHIFT_LTRS c).1, b < 32) ∧
    (ita2asc_stream SHIFT_FIGS (asc2ita SHIFT_FIGS c).1 =
        some (expected_text [c], (asc2ita SHIFT_FIGS c).2) ∧
      ∀ b ∈ (asc2ita SHIFT_FIGS c).1, b < 32) := by
  decide

/-- The expected text of a stream, character by character. -/
theorem expected_text_cons (c : Nat) (cs : List Nat) :
    expected_text (c :: cs) = expected_text [c] ++ expected_text cs := by
  simp only [expected_text, List.filter_cons, List.filter_nil]
  split <;> simp

/-- After one call of `asc2ita` from one of the two shift states, the shift
state is one of the two. -/
theorem asc2ita_state_valid (st c : Nat) (hst : st = SHIFT_LTRS ∨ st = SHIFT_FIGS) :
    (asc2ita st c).2 = SHIFT_LTRS ∨ (asc2ita st c).2 = SHIFT_FIGS := by
  rcases hst with rfl | rfl
  · rcases asc2ita_shift_from_ltrs c with h | h
    · exact Or.inl h.2
    · exact Or.inr h.2
  · rcases asc2ita_shift_from_figs c with h | h
    · exact Or.inr h.2
    · exact Or.inl h.2

/-- From either shift state, a stream without the three characters whose code is
above 31 is decoded back to its expected text, the decoder ending in the shift
state of the encoder; and the encoded stream holds 5-bit values only. -/
theorem stream_roundtrip_from (s : List Nat) : ∀ st,
    (st = SHIFT_LTRS ∨ st = SHIFT_FIGS) →
    (∀ c ∈ s, c < 128 ∧ c ≠ 0x22 ∧ c ≠ 0x26 ∧ c ≠ 0x27) →
    ita2asc_stream st (asc2ita_stream st s).1 =
        some (expected_text s, (asc2ita_stream st s).2) ∧
      ∀ b ∈ (asc2ita_stream st s).1, b < 32 := by
  induction s with
  | nil => intro st _ _; exact ⟨rfl, by simp [asc2ita_stream]⟩
  | cons c cs ih =>
    intro st hst hs
    obtain ⟨hc, h22, h26, h27⟩ := hs c (List.mem_cons_self c cs)
    have hT := roundtrip_step_table c hc h22 h26 h27
    have hstep : ita2asc_stream st (asc2ita st c).1 =
          some (expected_text [c], (asc2ita st c).2) ∧
        ∀ b ∈ (asc2ita st c).1, b < 32 := by
      rcases hst with rfl | rfl
      · exact hT.1
      · exact hT.2
    obtain ⟨hdec, hlt⟩ :=
      ih (asc2ita st c).2 (asc2ita_state_valid st c hst)
        (fun y hy => hs y (List.mem_cons_of_mem c hy))
    constructor
    · simp only [asc2ita_stream]
      rw [ita2asc_stream_append, hstep.1]
      simp [hdec, expected_text_cons c cs]
    · intro b hb
      simp only [asc2ita_stream, List.mem_append] at hb
      rcases hb with hb | hb
      · exact hstep.2 b hb
      · exact hlt b hb

/-- C18: for every sequence `s` of 7-bit bytes with no double quote (0x22), no
ampersand (0x26) and no apostrophe (0x27), decoding from LETTERS the stream
`[0x1F, 0x1F]` followed by the encoding of `s` from LETTERS gives `s` with the
Unrepresentable bytes removed and the lowercase letters made uppercase; the
decoder ends in the shift state of the encoder, and every byte it is fed is in
0..31. -/
theorem stream_roundtrip (s : List Nat)
    (hs : ∀ c ∈ s, c < 128 ∧ c ≠ 0x22 ∧ c ≠ 0x26 ∧ c ≠ 0x27) :
    ita2asc_stream SHIFT_LTRS ([0x1F, 0x1F] ++ (asc2ita_stream SHIFT_LTRS s).1) =
        some (expected_text s, (asc2ita_stream SHIFT_LTRS s).2) ∧
      ∀ b ∈ [0x1F, 0x1F] ++ (asc2ita_stream SHIFT_LTRS s).1, b < 32 := by
  obtain ⟨hdec, hlt⟩ := stream_roundtrip_from s SHIFT_LTRS (Or.inl rfl) hs
  have h1 : ita2asc SHIFT_LTRS 0x1F = some ([], SHIFT_LTRS) := by decide
  constructor
  · simp [ita2asc_stream, h1, hdec]
  · intro b hb
    simp only [List.cons_append, List.nil_append, List.mem_cons] at hb
    rcases hb with rfl | rfl | hb
    · decide
    · decide
    · exact hlt b hb

set_option maxRecDepth 100000 in
/-- The text `Hi #3` is encoded, with the two leading LTRS codes, as
`[0x1F, 0x1F, 0x14, 0x06, 0x04, 0x1B, 0x01]` and decoded as `HI 3`. -/
theorem stream_roundtrip_witness :
    ([0x1F, 0x1F] ++ (asc2ita_stream SHIFT_LTRS [0x48, 0x69, 0x20, 0x23, 0x33]).1 =
        [0x1F, 0x1F, 0x14, 0x06, 0x04, 0x1B, 0x01] ∧
      expected_text [0x48, 0x69, 0x20, 0x23, 0x33] = [0x48, 0x49, 0x20, 0x33]) ∧
    (ita2asc_stream SHIFT_LTRS
        ([0x1F, 0x1F] ++ (asc2ita_stream SHIFT_LTRS [0x48, 0x69, 0x20, 0x23, 0x33]).1) =
        some (expected_text [0x48, 0x69, 0x20, 0x23, 0x33],
          (asc2ita_stream SHIFT_LTRS [0x48, 0x69, 0x20, 0x23, 0x33]).2) ∧
      ∀ b ∈ [0x1F, 0x1F] ++ (asc2ita_stream SHIFT_LTRS [0x48, 0x69, 0x20, 0x23, 0x33]).1,
        b < 32) :=
  ⟨by decide, stream_roundtrip [0x48, 0x69, 0x20, 0x23, 0x33] (by decide)⟩

/-! ## Decoding then encoding -/

set_option maxRecDepth 100000 in
set_option synthInstance.maxSize 1000 in
set_option synthInstance.maxHeartbeats 200000 in
/-- Apart from the codes 0x05 and 0x1A in FIGURES, the byte decoded from a data
code is encoded back, in the same shift state, to that code alone. -/
theorem encode_inverts_decode_table : ∀ k, k < 32 → k ≠ 0x1B → k ≠ 0x1F →
    (ita2asc SHIFT_LTRS k = some ([ita2_ascii_ltrs.getD k 0], SHIFT_LTRS) ∧
      asc2ita SHIFT_LTRS (ita2_ascii_ltrs.getD k 0) = ([k], SHIFT_LTRS)) ∧
    (k ≠ 0x05 → k ≠ 0x1A →
      ita2asc SHIFT_FIGS k = some ([ita2_ascii_figs.getD k 0], SHIFT_FIGS) ∧
      asc2ita SHIFT_FIGS (ita2_ascii_figs.getD k 0) = ([k], SHIFT_FIGS)) := by
  decide

/-- C19, where the code departs from it: in FIGURES the code 0x05 decodes to the
apostrophe (0x27) and the code 0x1A to the ampersand (0x26), but `asc2ita`
encodes the apostrophe as `[0x27]` and the ampersand as `[0x26]`, not as
`[0x05]` and `[0x1A]`: the entries `0xFD27` and `0xFD26` of `ascii_ita2` do not
carry the codes of the decode table. -/
theorem encode_does_not_invert_figs :
    (ita2asc SHIFT_FIGS 0x05 = some ([0x27], SHIFT_FIGS) ∧
      asc2ita SHIFT_FIGS 0x27 = ([0x27], SHIFT_FIGS) ∧
      asc2ita SHIFT_FIGS 0x27 ≠ ([0x05], SHIFT_FIGS)) ∧
    (ita2asc SHIFT_FIGS 0x1A = some ([0x26], SHIFT_FIGS) ∧
      asc2ita SHIFT_FIGS 0x26 = ([0x26], SHIFT_FIGS) ∧
      asc2ita SHIFT_FIGS 0x26 ≠ ([0x1A], SHIFT_FIGS)) := by
  decide

/-! ## Every shift code is followed by a data code -/

/-- The low byte that `asc2ita` writes as data is never a shift code, whatever
the input byte. -/
theorem lsb_not_shift (c : Nat) : is_shift (asc2ita_lsb c) = false := by
  have h := lsb_not_shift_table (c &&& 0x7F) (mask_lt c)
  simpa only [asc2ita_lsb, asc2ita_conv_mask] using h

/-- The four shapes of the output of one call of `asc2ita`. -/
theorem asc2ita_shape (st c : Nat) :
    (asc2ita st c).1 = [] ∨ (asc2ita st c).1 = [asc2ita_lsb c] ∨
    (asc2ita st c).1 = [SHIFT_FIGS, asc2ita_lsb c] ∨
    (asc2ita st c).1 = [SHIFT_LTRS, asc2ita_lsb c] := by
  simp only [asc2ita]
  by_cases h1 : asc2ita_msb c = ITA2_BOTH
  · rw [if_pos h1]; simp
  · rw [if_neg h1]
    by_cases h2 : asc2ita_msb c = ITA2_FIGS
    · rw [if_pos h2]
      by_cases h3 : st ≠ SHIFT_FIGS
      · rw [if_pos h3]; simp
      · rw [if_neg h3]; simp
    · rw [if_neg h2]
      by_cases h4 : asc2ita_msb c = ITA2_LTRS
      · rw [if_pos h4]
        by_cases h5 : st ≠ SHIFT_LTRS
        · rw [if_pos h5]; simp
        · rw [if_neg h5]; simp
      · rw [if_neg h4]; simp

/-- A data byte in front of a stream does not change whether its shift codes are
followed. -/
theorem shift_followed_data (d : Nat) (l : List Nat) (hd : is_shift d = false) :
    shift_followed (d :: l) = shift_followed l := by
  simp [shift_followed, hd]

/-- A byte and then a data byte in front of a stream do not change whether its
shift codes are followed. -/
theorem shift_followed_pair (b d : Nat) (l : List Nat) (hd : is_shift d = false) :
    shift_followed (b :: d :: l) = shift_followed l := by
  simp [shift_followed, hd]

/-- From any shift state, every shift code in the output of a run of `asc2ita`
calls is followed by a data byte. -/
theorem asc2ita_stream_shift_followed (cs : List Nat) : ∀ st,
    shift_followed (asc2ita_stream st cs).1 = true := by
  induction cs with
  | nil => intro st; rfl
  | cons c cs ih =>
    intro st
    have hd := lsb_not_shift c
    simp only [asc2ita_stream]
    rcases asc2ita_shape st c with h | h | h | h <;> rw [h]
    · exact ih _
    · exact (shift_followed_data _ _ hd).trans (ih _)
    · exact (shift_followed_pair _ _ _ hd).trans (ih _)
    · exact (shift_followed_pair _ _ _ hd).trans (ih _)

/-- C20: for every sequence of input bytes encoded by successive `asc2ita` calls
from either shift state, each shift code of the output is immediately followed
by a byte that is no shift code (so no two shift codes are adjacent and the
output does not end with one); and the data code `asc2ita` writes for a byte is
never 0x1B or 0x1F. -/
theorem asc2ita_shift_used (cs : List Nat) :
    shift_followed (asc2ita_stream SHIFT_LTRS cs).1 = true ∧
    shift_followed (asc2ita_stream SHIFT_FIGS cs).1 = true ∧
    ∀ c, asc2ita_lsb c ≠ 0x1B ∧ asc2ita_lsb c ≠ 0x1F := by
  refine ⟨asc2ita_stream_shift_followed cs _, asc2ita_stream_shift_followed cs _, fun c => ?_⟩
  have h := lsb_not_shift c
  simp only [is_shift, SHIFT_FIGS, SHIFT_LTRS, Bool.or_eq_false_iff, beq_eq_false_iff_ne] at h
  exact h

end Ita2
